import Mathlib

/-!
Verification of the KudoMan collector (src/main.py) against its design
specification.

The development shallowly embeds the parts of `main.py` that carry the
invariants under scrutiny:

* the lockfile protocol (`doexit`, `is_lockfile_stale`, `setup_lockfile`),
* the scheduler loop's interrupt handling (`main_tick`, modelling the body of
  `main`'s `while True` loop),
* the configuration validator `Config.check_backups_num`,
* the backup pruning logic (`setup_backup_dir`),
* the time-series store and its derived-column recomputation
  (`log_kudos`, `read_output_file_in_chunks`, `update_secondary_stats`),
  including the 10000-row chunking performed by
  `pd.read_csv(..., chunksize=10000)` and the NaN-skipping semantics of
  pandas `rolling(..., min_periods=0).mean()` and `diff()`,
* the file-visibility behaviour of the store rewrite
  (`pandas.DataFrame.to_csv` opens the target with mode "w", i.e. it
  truncates in place; modelled by `to_csv_ops` / `fileStates`).

Machine reals from the source (Unix timestamps, kudos balances) are modelled
as rationals, metric values stored in the CSV as integers (the code writes
`int(kudos)`).  Spec-side definitions (`specMA`, `specD1`, `specMAD1`) state
the derived-column algorithms in the words of the specification and are
compared with the embedded code.
-/

namespace KudoMan

/-! ## Configuration validation (Config.check_backups_num) -/

/-- Embedding of `Config.check_backups_num`: `if v < 0: return 10` else the
value is returned unchanged. -/
def check_backups_num (v : ℤ) : ℤ :=
  if v < 0 then 10 else v

/-! ## Lockfile protocol -/

/-- Contents of the `.kudolock` file: the owning process id and the
acquisition time (seconds since the epoch), written as `f"{pid},{start_time}"`. -/
structure LockInfo where
  pid : ℕ
  start : ℚ
deriving DecidableEq

/-- A process visible to `psutil`: whether it is running and (an abstract
identifier of) its current working directory. -/
structure Proc where
  running : Bool
  cwd : ℕ
deriving DecidableEq

/-- Embedding of `doexit(code=1)`: `LOCKFILE.unlink(missing_ok=True)` followed
by `exit(code)`.  Returns the lockfile state after the call (always deleted)
and the process exit code. -/
def doexit (code : ℕ) : Option LockInfo × ℕ :=
  (none, code)

/-- Embedding of `is_lockfile_stale`.  `boot` is `psutil.boot_time()`, `now`
is `time.time()`, `procs` is the process table (as seen by `psutil.Process`),
`cwd` the collector's working directory, `lock` the parsed lockfile contents.
The reboot test is the code's literal comparison
`psutil.boot_time() < (time.time() - lstart)`. -/
def is_lockfile_stale (boot now : ℚ) (procs : ℕ → Option Proc) (cwd : ℕ)
    (lock : LockInfo) : Bool :=
  if boot < now - lock.start then
    true
  else
    match procs lock.pid with
    | some lproc => if lproc.running then !(cwd == lproc.cwd) else false
    | none => true

/-- Result of `setup_lockfile` from the calling process's point of view:
either the process exited (with the resulting lockfile state and exit code)
or it acquired the lock (with the resulting lockfile state). -/
inductive SetupResult where
  | exited (lockAfter : Option LockInfo) (code : ℕ)
  | acquired (lockAfter : Option LockInfo)
deriving DecidableEq

/-- Embedding of `setup_lockfile`: if a lockfile exists and is stale it is
unlinked and a fresh token `f"{os.getpid()},{time.time()}"` is written; if it
exists and is not stale the code logs the conflict and calls `doexit()`
(default code 1); if no lockfile exists a fresh token is written. -/
def setup_lockfile (boot now : ℚ) (procs : ℕ → Option Proc) (cwd : ℕ)
    (mypid : ℕ) (lockState : Option LockInfo) : SetupResult :=
  match lockState with
  | some l =>
      if is_lockfile_stale boot now procs cwd l then
        SetupResult.acquired (some ⟨mypid, now⟩)
      else
        SetupResult.exited (doexit 1).1 (doexit 1).2
  | none => SetupResult.acquired (some ⟨mypid, now⟩)

/-! ## Scheduler loop (body of `main`'s `while True`) -/

/-- Outcome of the work phase of one tick (`fetch_kudos` / `log_kudos` /
`update_secondary_stats` / `plot_kudos` inside the first `try`). -/
inductive WorkOutcome where
  | fetchOk (kudos : ℚ)
  | reqErr
  | otherErr
  | interrupted
deriving DecidableEq

/-- Outcome of the sleep phase of one tick (`time.sleep(TIME)` inside the
second `try`). -/
inductive SleepOutcome where
  | slept
  | interrupted
deriving DecidableEq

/-- Result of one loop iteration: continue to the next tick, or process exit
with the resulting lockfile state and exit code. -/
inductive StepResult where
  | nextTick (lockAfter : Option LockInfo)
  | exited (lockAfter : Option LockInfo) (code : ℕ)
deriving DecidableEq

/-- Embedding of one iteration of `main`'s `while True` loop, restricted to
its effect on the lockfile and the exit status.  A `KeyboardInterrupt` in the
work phase is caught and handled by `doexit()`; `requests.RequestException`
and any other exception are logged and the loop proceeds to the sleep phase;
a `KeyboardInterrupt` during the sleep is caught and handled by `doexit()`. -/
def main_tick (lock : Option LockInfo) (wo : WorkOutcome) (so : SleepOutcome) :
    StepResult :=
  match wo with
  | .interrupted => StepResult.exited (doexit 1).1 (doexit 1).2
  | _ =>
      match so with
      | .interrupted => StepResult.exited (doexit 1).1 (doexit 1).2
      | .slept => StepResult.nextTick lock

/-! ## Backup pruning (setup_backup_dir) -/

/-- A directory entry of the backup directory `bak.d` as seen by
`BACKUP_DIR.iterdir()`: its name and its creation time `x.stat().st_ctime`.
Nothing restricts entries to snapshot artifacts. -/
structure Entry where
  name : String
  ctime : ℚ
deriving DecidableEq

/-- The ordering used by `sorted(BACKUP_DIR.iterdir(), key=lambda x:
x.stat().st_ctime, reverse=True)`: most recent creation time first. -/
def entNewerEq (a b : Entry) : Prop := b.ctime ≤ a.ctime

instance : DecidableRel entNewerEq :=
  fun a b => inferInstanceAs (Decidable (b.ctime ≤ a.ctime))

instance : IsTotal Entry entNewerEq := ⟨fun a b => le_total b.ctime a.ctime⟩

instance : IsTrans Entry entNewerEq := ⟨fun _ _ _ h1 h2 => le_trans h2 h1⟩

/-- Embedding of `setup_backup_dir`, restricted to its pruning effect: the
directory entries are sorted most-recent-first and, when there are more than
`NUMBACKUPS` of them, every entry from position `NUMBACKUPS` on is unlinked.
The value is the list of entries remaining in the directory.  (Python's
stable `sorted` and `List.insertionSort` agree whenever the creation times
are distinct, which is the hypothesis under which the claims are proved.) -/
def setup_backup_dir (n : ℕ) (entries : List Entry) : List Entry :=
  let backups := List.insertionSort entNewerEq entries
  if n < backups.length then backups.take n else backups

/-! ## The time-series store (out.csv) and update_secondary_stats -/

/-- One row of `out.csv`: the timestamp and metric written by `log_kudos`,
plus the three derived columns (absent/NaN modelled as `none`). -/
@[ext]
structure Row where
  time : ℚ
  kudos : ℤ
  ma : Option ℚ
  d1 : Option ℚ
  mad1 : Option ℚ
deriving DecidableEq

/-- pandas `Series.rolling(window=w, min_periods=0).mean()`: at index `i` the
window covers positions `max (i+1-w) 0 .. i`; NaN entries are skipped, and
the mean of an empty set of values is NaN (`none`). -/
def rollingMean (w : ℕ) (xs : List (Option ℚ)) : List (Option ℚ) :=
  (List.range xs.length).map (fun i =>
    let vals := ((xs.take (i + 1)).drop (i + 1 - w)).filterMap id
    if vals.isEmpty then none else some (vals.sum / (vals.length : ℚ)))

/-- The successive differences of `a :: t`, i.e. the defined entries of
pandas `diff()` applied to `a :: t`. -/
def diffsFrom (a : ℤ) : List ℤ → List ℚ
  | [] => []
  | b :: t => ((b : ℚ) - (a : ℚ)) :: diffsFrom b t

/-- pandas `Series.diff()`: NaN at index 0, `x[i] - x[i-1]` afterwards. -/
def seriesDiff : List ℤ → List (Option ℚ)
  | [] => []
  | a :: t => none :: (diffsFrom a t).map some

/-- Assigning a column of a data frame (`chunk["MA"] = ...` etc.): each row
is combined with the corresponding value of the new column. -/
def setCol (f : Row → Option ℚ → Row) (rows : List Row) (col : List (Option ℚ)) :
    List Row :=
  List.zipWith f rows col

/-- The integer metric column viewed as a series of (always defined)
rational values, as pandas does before averaging. -/
def intCol (ks : List ℤ) : List (Option ℚ) :=
  ks.map (fun k => Option.some (Int.cast k : ℚ))

/-- `chunk["MA"] = chunk["Kudos"].rolling(window=config.MAWINDOW,
min_periods=0).mean()`. -/
def withMA (w : ℕ) (chunk : List Row) : List Row :=
  setCol (fun r v => { r with ma := v }) chunk
    (rollingMean w (intCol (chunk.map Row.kudos)))

/-- `chunk["D1"] = chunk["Kudos"].diff()`. -/
def withD1 (rows : List Row) : List Row :=
  setCol (fun r v => { r with d1 := v }) rows (seriesDiff (rows.map Row.kudos))

/-- `chunk["MAD1"] = chunk["D1"].rolling(window=15, min_periods=0).mean()`. -/
def withMAD1 (rows : List Row) : List Row :=
  setCol (fun r v => { r with mad1 := v }) rows (rollingMean 15 (rows.map Row.d1))

/-- The body of the `for chunk in df_chunks` loop of `update_secondary_stats`:
the three column assignments applied to one chunk. -/
def chunkUpdate (w : ℕ) (chunk : List Row) : List Row :=
  withMAD1 (withD1 (withMA w chunk))

/-- Fuel-driven worker for the chunk iterator (structural recursion so that
it evaluates). -/
def chunksGo : ℕ → List Row → List (List Row)
  | 0, _ => []
  | _, [] => []
  | fuel + 1, r :: rest =>
      ((r :: rest).take 10000) :: chunksGo fuel ((r :: rest).drop 10000)

/-- Embedding of `read_output_file_in_chunks`:
`pd.read_csv(OUTPUT_FILE, chunksize=10000)` yields the rows of the store in
successive chunks of 10000. -/
def read_output_file_in_chunks (rows : List Row) : List (List Row) :=
  chunksGo rows.length rows

/-- Embedding of `update_secondary_stats`: every chunk is processed
independently (pandas computes `rolling` and `diff` per chunk) and the
results are concatenated (`pd.concat(results, ignore_index=True)`), giving
the rows written back to the store by `final_df.to_csv`. -/
def update_secondary_stats (w : ℕ) (rows : List Row) : List Row :=
  ((read_output_file_in_chunks rows).map (chunkUpdate w)).flatten

/-! ## File visibility of the store rewrite (DataFrame.to_csv) -/

/-- Observable states of the store file: a complete CSV (header plus rows)
or the truncated file left by opening the path with mode "w" before the new
content has been written. -/
inductive FileState where
  | complete (rows : List Row)
  | truncated
deriving DecidableEq

/-- Filesystem operations performed on the store path. -/
inductive FsOp where
  | openTrunc
  | writeAll (rows : List Row)
deriving DecidableEq

/-- Effect of one filesystem operation on the store file. -/
def runFsOp : FileState → FsOp → FileState
  | _, .openTrunc => FileState.truncated
  | _, .writeAll rows => FileState.complete rows

/-- All states the store file passes through while a sequence of operations
runs (what a concurrent reader, or a crash, can observe). -/
def fileStates (init : FileState) : List FsOp → List FileState
  | [] => [init]
  | op :: ops => init :: fileStates (runFsOp init op) ops

/-- `pandas.DataFrame.to_csv(path)` opens the target path with mode "w"
(truncating it in place) and then writes the rendered frame; it does not
write to a temporary file and rename. -/
def to_csv_ops (rows : List Row) : List FsOp :=
  [FsOp.openTrunc, FsOp.writeAll rows]

/-- The store-file states observable during the rewrite performed at the end
of `update_secondary_stats`, starting from a store holding `pre`. -/
def update_secondary_stats_trace (w : ℕ) (pre : List Row) : List FileState :=
  fileStates (FileState.complete pre) (to_csv_ops (update_secondary_stats w pre))

/-! ## Appending a sample (log_kudos) -/

/-- Python `int()` applied to a float/rational: truncation toward zero. -/
def pyInt (q : ℚ) : ℤ := q.num.tdiv q.den

/-- The format `f"{timestamp:.2f}"`: the timestamp rounded to and rendered
with exactly two decimal places. -/
def fmtFixed2 (q : ℚ) : String :=
  let c : ℤ := round (q * 100)
  (if c < 0 then "-" else "") ++ toString (c.natAbs / 100) ++ "." ++
    (if c.natAbs % 100 < 10 then "0" else "") ++ toString (c.natAbs % 100)

/-- Embedding of `log_kudos`: the store file (a list of lines) is opened in
append mode and `f"{timestamp:.2f},{int(kudos)}\n"` is written, i.e. exactly
one line is added at the end. -/
def log_kudos (now kudos : ℚ) (file : List String) : List String :=
  file ++ [fmtFixed2 now ++ "," ++ toString (pyInt kudos)]

/-! ## Specification-side definitions for the derived columns -/

/-- The `n` most recent elements of `l` (all of `l` if it is shorter). -/
def lastN {α : Type} (n : ℕ) (l : List α) : List α := l.drop (l.length - n)

/-- Integer metric values viewed as rationals. -/
def castCol (ks : List ℤ) : List ℚ :=
  ks.map (fun k => (Int.cast k : ℚ))

/-- Moving average as stated by the specification: the arithmetic mean of
the metric over the `min (i+1) w` most recent samples ending at row `i`. -/
def specMA (w : ℕ) (ks : List ℤ) (i : ℕ) : Option ℚ :=
  let window := lastN (min (i + 1) w) (ks.take (i + 1))
  some ((castCol window).sum / (window.length : ℚ))

/-- First difference as stated by the specification: undefined at row 0,
`metric[i] - metric[i-1]` for `i > 0`. -/
def specD1 (ks : List ℤ) (i : ℕ) : Option ℚ :=
  if i = 0 then none
  else some ((ks.getD i 0 : ℚ) - (ks.getD (i - 1) 0 : ℚ))

/-- Moving average of the first difference as stated by the specification:
undefined at row 0, and for `i > 0` the mean of the `min i 15` most recent
defined differences. -/
def specMAD1 (ks : List ℤ) (i : ℕ) : Option ℚ :=
  match ks with
  | [] => none
  | a :: t =>
      if i = 0 then none
      else
        let window := lastN (min i 15) ((diffsFrom a t).take i)
        some (window.sum / (window.length : ℚ))

/-! ## Theorems for the lock, scheduler and configuration claims -/

/-- C1: a live, non-stale lock written by another process exists (pid 42,
running, same working directory, no reboot); the second process (pid 999)
attempting to acquire exits — but through `doexit()`, which unlinks the
other process's lockfile, so the lock file contents after the attempt
(`none`) differ from the contents before (`some ⟨42, 1500⟩`).  This refutes
the claim that the existing lock file is left unchanged. -/
theorem claim_C1 :
    is_lockfile_stale 1000 2000 (fun p => if p = 42 then some ⟨true, 7⟩ else none)
        7 ⟨42, 1500⟩ = false ∧
    setup_lockfile 1000 2000 (fun p => if p = 42 then some ⟨true, 7⟩ else none)
        7 999 (some ⟨42, 1500⟩) = SetupResult.exited none 1 ∧
    (none : Option LockInfo) ≠ some ⟨42, 1500⟩ := by
  have h : ¬ ((1000 : ℚ) < 2000 - 1500) := by norm_num
  refine ⟨?_, ?_, by simp⟩
  · simp [is_lockfile_stale, h]
  · simp [setup_lockfile, is_lockfile_stale, doexit, h]

/-- C2: a lock whose recorded acquisition time (1600000000) precedes the
host's boot time (1700000000) is nevertheless judged non-stale: the code
compares the absolute boot timestamp with the elapsed duration
`time.time() - lstart` instead of comparing `boot_time` with `lstart`, so the
reboot branch is not taken, and the liveness branch (pid 42 running in the
same directory) returns `false`. -/
theorem claim_C2 :
    (1600000000 : ℚ) < 1700000000 ∧
    is_lockfile_stale 1700000000 1700000100
        (fun p => if p = 42 then some ⟨true, 7⟩ else none) 7
        ⟨42, 1600000000⟩ = false := by
  have h : ¬ ((1700000000 : ℚ) < 1700000100 - 1600000000) := by norm_num
  exact ⟨by norm_num, by simp [is_lockfile_stale, h]⟩

/-- C6 counterexample: the validator accepts a configured retention count of
0 unchanged — it is not coerced to a positive default, refuting the claim
that every N ≤ 0 is coerced. -/
theorem claim_C6_counterexample :
    check_backups_num 0 = 0 ∧ ¬ 0 < check_backups_num 0 := by
  decide

/-- C6 (amended): only a strictly negative configured retention count is
treated as a configuration error and coerced to the default 10 (which is
positive); a retention count of 0 is accepted unchanged. -/
theorem claim_C6 :
    (∀ v : ℤ, v < 0 → check_backups_num v = 10 ∧ 0 < check_backups_num v) ∧
    (∀ v : ℤ, 0 ≤ v → check_backups_num v = v) := by
  constructor
  · intro v hv
    simp [check_backups_num, hv]
  · intro v hv
    simp [check_backups_num, not_lt.mpr hv]

/-- C6 witness: the amended theorem evaluated at v = -3 and v = 0. -/
theorem claim_C6_witness :
    ((-3 : ℤ) < 0 ∧ check_backups_num (-3) = 10) ∧
    ((0 : ℤ) ≤ 0 ∧ check_backups_num 0 = 0) :=
  ⟨⟨by decide, (claim_C6.1 (-3) (by decide)).1⟩,
   ⟨by decide, claim_C6.2 0 (by decide)⟩⟩

/-- C7 counterexample: an interrupt during the work phase routes through
`doexit()`, which removes the lockfile but exits with status 1 (the default
of `doexit`), not with a success status. -/
theorem claim_C7_counterexample :
    main_tick (some ⟨42, 1500⟩) WorkOutcome.interrupted SleepOutcome.slept =
      StepResult.exited none 1 ∧
    main_tick (some ⟨42, 1500⟩) WorkOutcome.interrupted SleepOutcome.slept ≠
      StepResult.exited none 0 := by
  decide

/-- C7 (amended): on an external cancellation signal during either the work
phase or the sleep phase of the running loop, the process deletes the lock
before exiting, and every exit path of the loop leaves the lockfile deleted —
but the exit status is 1 (the default of `doexit`), not a success status. -/
theorem claim_C7 (lock : Option LockInfo) (wo : WorkOutcome) (so : SleepOutcome) :
    main_tick lock WorkOutcome.interrupted so = StepResult.exited none 1 ∧
    main_tick lock wo SleepOutcome.interrupted = StepResult.exited none 1 ∧
    (∀ l c, main_tick lock wo so = StepResult.exited l c → l = none ∧ c = 1) := by
  refine ⟨rfl, ?_, ?_⟩
  · cases wo <;> rfl
  · intro l c h
    cases wo <;> cases so <;> simp [main_tick, doexit] at h ⊢ <;>
      exact ⟨h.1.symm, h.2.symm⟩

/-- C7 witness: the amended theorem evaluated with no lock and an interrupt
during the work phase. -/
theorem claim_C7_witness :
    main_tick none WorkOutcome.interrupted SleepOutcome.slept =
      StepResult.exited none 1 ∧
    ((none : Option LockInfo) = none ∧ (1 : ℕ) = 1) :=
  ⟨(claim_C7 none WorkOutcome.interrupted SleepOutcome.slept).1,
   (claim_C7 none WorkOutcome.interrupted SleepOutcome.slept).2.2 none 1 (by decide)⟩

/-! ## Theorems for the backup pruning claims -/

lemma setup_backup_dir_eq (n : ℕ) (entries : List Entry) :
    setup_backup_dir n entries = (List.insertionSort entNewerEq entries).take n := by
  by_cases h : n < (List.insertionSort entNewerEq entries).length
  · simp [setup_backup_dir, h]
  · simp only [setup_backup_dir, if_neg h]
    exact (List.take_of_length_le (by omega)).symm

lemma setup_backup_dir_length (n : ℕ) (entries : List Entry) :
    (setup_backup_dir n entries).length = min n entries.length := by
  rw [setup_backup_dir_eq, List.length_take, List.length_insertionSort]

lemma pairwise_insertionSort_ne (entries : List Entry)
    (hdist : entries.Pairwise (fun a b => a.ctime ≠ b.ctime)) :
    (List.insertionSort entNewerEq entries).Pairwise (fun a b => a.ctime ≠ b.ctime) :=
  (List.Perm.pairwise_iff (fun h => Ne.symm h)
    (List.perm_insertionSort entNewerEq entries)).mpr hdist

/-- In a list that is strictly decreasing on `key`, an element is among the
first `n` exactly when fewer than `n` elements of the list have a strictly
larger key. -/
lemma mem_take_iff_countP {α : Type} (key : α → ℚ) :
    ∀ (l : List α) (n : ℕ), l.Pairwise (fun x y => key y < key x) →
      ∀ a ∈ l, (a ∈ l.take n ↔ l.countP (fun b => decide (key a < key b)) < n) := by
  intro l
  induction l with
  | nil => intro n _ a ha; simp at ha
  | cons x t ih =>
    intro n hpw a ha
    have hx : ∀ y ∈ t, key y < key x := by
      intro y hy; exact (List.pairwise_cons.mp hpw).1 y hy
    have ht : t.Pairwise (fun x y => key y < key x) := (List.pairwise_cons.mp hpw).2
    cases n with
    | zero => simp
    | succ n =>
      rcases List.mem_cons.mp ha with rfl | hat
      · have hcount : t.countP (fun b => decide (key a < key b)) = 0 := by
          rw [List.countP_eq_zero]
          intro y hy
          simpa using not_lt.mpr (le_of_lt (hx y hy))
        have hself : (decide (key a < key a)) = false := by simp
        simp [List.take_succ_cons, List.countP_cons, hcount, hself]
      · have hne : a ≠ x := by
          intro h
          exact absurd (hx a hat) (by rw [h]; exact lt_irrefl _)
        have hax : key a < key x := hx a hat
        have hcp : (x :: t).countP (fun b => decide (key a < key b)) =
            t.countP (fun b => decide (key a < key b)) + 1 := by
          rw [List.countP_cons]
          simp [hax]
        rw [List.take_succ_cons, hcp, List.mem_cons]
        constructor
        · rintro (rfl | h)
          · exact absurd rfl hne
          · exact Nat.add_lt_add_right ((ih n ht a hat).mp h) 1
        · intro h
          exact Or.inr ((ih n ht a hat).mpr (Nat.lt_of_add_lt_add_right h))

/-- C5: with a positive retention count `n` and backup artifacts with
pairwise-distinct creation times, pruning leaves exactly
`min n entries.length` artifacts, every remaining artifact was present
before, and every remaining artifact is strictly more recent than every
deleted one (so the `n` most recent are the ones kept and the oldest beyond
`n` are the ones deleted). -/
theorem claim_C5 (n : ℕ) (hn : 0 < n) (entries : List Entry)
    (hdist : entries.Pairwise (fun a b => a.ctime ≠ b.ctime)) :
    (setup_backup_dir n entries).length = min n entries.length ∧
    (∀ a ∈ setup_backup_dir n entries, a ∈ entries) ∧
    (∀ a ∈ setup_backup_dir n entries, ∀ b ∈ entries,
        b ∉ setup_backup_dir n entries → b.ctime < a.ctime) := by
  have hperm : (List.insertionSort entNewerEq entries).Perm entries :=
    List.perm_insertionSort entNewerEq entries
  have hsorted : (List.insertionSort entNewerEq entries).Pairwise entNewerEq :=
    List.sorted_insertionSort entNewerEq entries
  have hdists := pairwise_insertionSort_ne entries hdist
  refine ⟨setup_backup_dir_length n entries, ?_, ?_⟩
  · intro a ha
    rw [setup_backup_dir_eq] at ha
    exact hperm.mem_iff.mp (List.mem_of_mem_take ha)
  · intro a ha b hb hbn
    rw [setup_backup_dir_eq] at ha hbn
    set s := List.insertionSort entNewerEq entries with hs
    have hbs : b ∈ s := hperm.mem_iff.mpr hb
    have has : a ∈ s := List.mem_of_mem_take ha
    have hsplit : s.take n ++ s.drop n = s := List.take_append_drop n s
    have hbdrop : b ∈ s.drop n := by
      rcases List.mem_append.mp (by rw [hsplit]; exact hbs) with h | h
      · exact absurd h hbn
      · exact h
    have hle : entNewerEq a b := by
      have := (List.pairwise_append.mp (by rw [hsplit]; exact hsorted)).2.2
      exact this a ha b hbdrop
    have hne : a ≠ b := fun h => hbn (h ▸ ha)
    have hane : a.ctime ≠ b.ctime :=
      (List.Pairwise.forall (fun _ _ h => Ne.symm h) hdists) has hbs hne
    exact lt_of_le_of_ne hle (fun h => hane h.symm)

/-- C5 witness: retention 3 with five artifacts of distinct creation times. -/
theorem claim_C5_witness :
    0 < 3 ∧
    ([⟨"b1", 10⟩, ⟨"b2", 30⟩, ⟨"b3", 20⟩, ⟨"b4", 50⟩, ⟨"b5", 40⟩] :
        List Entry).Pairwise (fun a b => a.ctime ≠ b.ctime) ∧
    (setup_backup_dir 3
        [⟨"b1", 10⟩, ⟨"b2", 30⟩, ⟨"b3", 20⟩, ⟨"b4", 50⟩, ⟨"b5", 40⟩]).length =
      min 3 ([⟨"b1", 10⟩, ⟨"b2", 30⟩, ⟨"b3", 20⟩, ⟨"b4", 50⟩, ⟨"b5", 40⟩] :
        List Entry).length :=
  ⟨by decide, by decide,
   (claim_C5 3 (by decide)
      [⟨"b1", 10⟩, ⟨"b2", 30⟩, ⟨"b3", 20⟩, ⟨"b4", 50⟩, ⟨"b5", 40⟩] (by decide)).1⟩

/-- C10: pruning counts every directory entry toward the retention limit,
whatever its name or kind: with pairwise-distinct creation times, exactly
`min n entries.length` entries remain, and an entry remains exactly when
fewer than `n` entries of the directory (of any kind) have a more recent
creation time — the survival criterion depends only on creation times. -/
theorem claim_C10 (n : ℕ) (entries : List Entry)
    (hdist : entries.Pairwise (fun a b => a.ctime ≠ b.ctime)) :
    (setup_backup_dir n entries).length = min n entries.length ∧
    (∀ a ∈ entries, (a ∈ setup_backup_dir n entries ↔
        entries.countP (fun b => decide (a.ctime < b.ctime)) < n)) := by
  have hperm : (List.insertionSort entNewerEq entries).Perm entries :=
    List.perm_insertionSort entNewerEq entries
  have hsorted : (List.insertionSort entNewerEq entries).Pairwise entNewerEq :=
    List.sorted_insertionSort entNewerEq entries
  have hdists := pairwise_insertionSort_ne entries hdist
  have hstrict : (List.insertionSort entNewerEq entries).Pairwise
      (fun x y => y.ctime < x.ctime) := by
    have hand := List.Pairwise.and hsorted hdists
    exact hand.imp (fun h => lt_of_le_of_ne h.1 (fun he => h.2 he.symm))
  refine ⟨setup_backup_dir_length n entries, ?_⟩
  intro a ha
  rw [setup_backup_dir_eq]
  have has : a ∈ List.insertionSort entNewerEq entries := hperm.mem_iff.mpr ha
  rw [mem_take_iff_countP Entry.ctime _ n hstrict a has]
  rw [hperm.countP_eq]

/-! ## Basic lemmas about the store operations -/

lemma rollingMean_length (w : ℕ) (xs : List (Option ℚ)) :
    (rollingMean w xs).length = xs.length := by
  simp [rollingMean]

lemma diffsFrom_length (t : List ℤ) : ∀ a : ℤ, (diffsFrom a t).length = t.length := by
  induction t with
  | nil => intro a; rfl
  | cons b t ih => intro a; simp [diffsFrom, ih b]

lemma seriesDiff_length (ks : List ℤ) : (seriesDiff ks).length = ks.length := by
  cases ks with
  | nil => rfl
  | cons a t => simp [seriesDiff, diffsFrom_length]

lemma rollingMean_getD (w : ℕ) (xs : List (Option ℚ)) (i : ℕ) (h : i < xs.length) :
    (rollingMean w xs).getD i none =
      (if (((xs.take (i + 1)).drop (i + 1 - w)).filterMap id).isEmpty then none
       else some ((((xs.take (i + 1)).drop (i + 1 - w)).filterMap id).sum /
                  ((((xs.take (i + 1)).drop (i + 1 - w)).filterMap id).length : ℚ))) := by
  rw [rollingMean, List.getD_eq_getElem?_getD, List.getElem?_map, List.getElem?_range h]
  rfl

lemma setCol_length (f : Row → Option ℚ → Row) (rows : List Row)
    (col : List (Option ℚ)) (h : rows.length ≤ col.length) :
    (setCol f rows col).length = rows.length := by
  rw [setCol, List.length_zipWith]
  exact inf_eq_left.mpr h

lemma setCol_map_eq {γ : Type} (f : Row → Option ℚ → Row) (g : Row → γ)
    (hp : ∀ r v, g (f r v) = g r) :
    ∀ (rows : List Row) (col : List (Option ℚ)), rows.length ≤ col.length →
      (setCol f rows col).map g = rows.map g := by
  intro rows
  induction rows with
  | nil => intro col _; rfl
  | cons r rs ih =>
    intro col h
    cases col with
    | nil => simp at h
    | cons v vs =>
      have hlen : rs.length ≤ vs.length := by
        simp only [List.length_cons] at h
        omega
      show (f r v :: setCol f rs vs).map g = g r :: rs.map g
      rw [List.map_cons, hp r v, ih vs hlen]

lemma setCol_map_col (f : Row → Option ℚ → Row) (g : Row → Option ℚ)
    (hs : ∀ r v, g (f r v) = v) :
    ∀ (rows : List Row) (col : List (Option ℚ)), col.length = rows.length →
      (setCol f rows col).map g = col := by
  intro rows
  induction rows with
  | nil =>
    intro col h
    rw [List.eq_nil_of_length_eq_zero h]
    rfl
  | cons r rs ih =>
    intro col h
    cases col with
    | nil => simp at h
    | cons v vs =>
      have hlen : vs.length = rs.length := by
        simp only [List.length_cons] at h
        omega
      show (f r v :: setCol f rs vs).map g = v :: vs
      rw [List.map_cons, hs r v, ih vs hlen]

lemma intCol_length (ks : List ℤ) : (intCol ks).length = ks.length := by
  simp [intCol]

lemma withMA_spec (w : ℕ) (chunk : List Row) :
    (withMA w chunk).length = chunk.length ∧
    (withMA w chunk).map Row.time = chunk.map Row.time ∧
    (withMA w chunk).map Row.kudos = chunk.map Row.kudos ∧
    (withMA w chunk).map Row.ma =
      rollingMean w (intCol (chunk.map Row.kudos)) := by
  have hcol : (rollingMean w (intCol (chunk.map Row.kudos))).length
      = chunk.length := by
    rw [rollingMean_length, intCol_length, List.length_map]
  exact ⟨setCol_length _ _ _ (le_of_eq hcol.symm),
    setCol_map_eq (fun r v => { r with ma := v }) Row.time (fun _ _ => rfl)
      chunk _ (le_of_eq hcol.symm),
    setCol_map_eq (fun r v => { r with ma := v }) Row.kudos (fun _ _ => rfl)
      chunk _ (le_of_eq hcol.symm),
    setCol_map_col (fun r v => { r with ma := v }) Row.ma (fun _ _ => rfl)
      chunk _ hcol⟩

lemma withD1_spec (rows : List Row) :
    (withD1 rows).length = rows.length ∧
    (withD1 rows).map Row.time = rows.map Row.time ∧
    (withD1 rows).map Row.kudos = rows.map Row.kudos ∧
    (withD1 rows).map Row.ma = rows.map Row.ma ∧
    (withD1 rows).map Row.d1 = seriesDiff (rows.map Row.kudos) := by
  have hcol : (seriesDiff (rows.map Row.kudos)).length = rows.length := by
    rw [seriesDiff_length, List.length_map]
  exact ⟨setCol_length _ _ _ (le_of_eq hcol.symm),
    setCol_map_eq (fun r v => { r with d1 := v }) Row.time (fun _ _ => rfl)
      rows _ (le_of_eq hcol.symm),
    setCol_map_eq (fun r v => { r with d1 := v }) Row.kudos (fun _ _ => rfl)
      rows _ (le_of_eq hcol.symm),
    setCol_map_eq (fun r v => { r with d1 := v }) Row.ma (fun _ _ => rfl)
      rows _ (le_of_eq hcol.symm),
    setCol_map_col (fun r v => { r with d1 := v }) Row.d1 (fun _ _ => rfl)
      rows _ hcol⟩

lemma withMAD1_spec (rows : List Row) :
    (withMAD1 rows).length = rows.length ∧
    (withMAD1 rows).map Row.time = rows.map Row.time ∧
    (withMAD1 rows).map Row.kudos = rows.map Row.kudos ∧
    (withMAD1 rows).map Row.ma = rows.map Row.ma ∧
    (withMAD1 rows).map Row.d1 = rows.map Row.d1 ∧
    (withMAD1 rows).map Row.mad1 = rollingMean 15 (rows.map Row.d1) := by
  have hcol : (rollingMean 15 (rows.map Row.d1)).length = rows.length := by
    rw [rollingMean_length, List.length_map]
  exact ⟨setCol_length _ _ _ (le_of_eq hcol.symm),
    setCol_map_eq (fun r v => { r with mad1 := v }) Row.time (fun _ _ => rfl)
      rows _ (le_of_eq hcol.symm),
    setCol_map_eq (fun r v => { r with mad1 := v }) Row.kudos (fun _ _ => rfl)
      rows _ (le_of_eq hcol.symm),
    setCol_map_eq (fun r v => { r with mad1 := v }) Row.ma (fun _ _ => rfl)
      rows _ (le_of_eq hcol.symm),
    setCol_map_eq (fun r v => { r with mad1 := v }) Row.d1 (fun _ _ => rfl)
      rows _ (le_of_eq hcol.symm),
    setCol_map_col (fun r v => { r with mad1 := v }) Row.mad1 (fun _ _ => rfl)
      rows _ hcol⟩

lemma chunkUpdate_spec (w : ℕ) (chunk : List Row) :
    (chunkUpdate w chunk).length = chunk.length ∧
    (chunkUpdate w chunk).map Row.time = chunk.map Row.time ∧
    (chunkUpdate w chunk).map Row.kudos = chunk.map Row.kudos ∧
    (chunkUpdate w chunk).map Row.ma =
      rollingMean w (intCol (chunk.map Row.kudos)) ∧
    (chunkUpdate w chunk).map Row.d1 = seriesDiff (chunk.map Row.kudos) ∧
    (chunkUpdate w chunk).map Row.mad1 =
      rollingMean 15 (seriesDiff (chunk.map Row.kudos)) := by
  obtain ⟨a1, a2, a3, a4⟩ := withMA_spec w chunk
  obtain ⟨b1, b2, b3, b4, b5⟩ := withD1_spec (withMA w chunk)
  obtain ⟨c1, c2, c3, c4, c5, c6⟩ := withMAD1_spec (withD1 (withMA w chunk))
  rw [a3] at b3 b5
  rw [b3] at c3
  rw [b5] at c5 c6
  refine ⟨?_, ?_, ?_, ?_, ?_, ?_⟩
  · rw [chunkUpdate, c1, b1, a1]
  · rw [chunkUpdate, c2, b2, a2]
  · rw [chunkUpdate, c3]
  · rw [chunkUpdate, c4, b4, a4]
  · rw [chunkUpdate, c5]
  · rw [chunkUpdate, c6]

/-! ## Lemmas about the chunk iterator -/

lemma chunksGo_nil : ∀ fuel : ℕ, chunksGo fuel [] = [] := by
  intro fuel; cases fuel <;> rfl

lemma chunksGo_congr : ∀ (fuel₁ fuel₂ : ℕ) (rows : List Row),
    rows.length ≤ fuel₁ → rows.length ≤ fuel₂ →
    chunksGo fuel₁ rows = chunksGo fuel₂ rows := by
  intro fuel₁
  induction fuel₁ with
  | zero =>
    intro fuel₂ rows h1 _
    rw [List.eq_nil_of_length_eq_zero (Nat.le_zero.mp h1), chunksGo_nil, chunksGo_nil]
  | succ f ih =>
    intro fuel₂ rows h1 h2
    cases rows with
    | nil => rw [chunksGo_nil, chunksGo_nil]
    | cons r rest =>
      cases fuel₂ with
      | zero => simp at h2
      | succ f₂ =>
        simp only [chunksGo]
        congr 1
        refine ih f₂ _ ?_ ?_ <;> · rw [List.length_drop]; simp at h1 h2 ⊢; omega

lemma read_chunks_nil : read_output_file_in_chunks [] = [] := rfl

lemma read_chunks_cons (rows : List Row) (h : rows ≠ []) :
    read_output_file_in_chunks rows =
      rows.take 10000 :: read_output_file_in_chunks (rows.drop 10000) := by
  cases rows with
  | nil => exact absurd rfl h
  | cons r rest =>
    show chunksGo (rest.length + 1) (r :: rest) = _
    simp only [chunksGo]
    congr 1
    exact chunksGo_congr rest.length _ _
      (by rw [List.length_drop, List.length_cons]; omega) le_rfl

lemma read_chunks_single (rows : List Row) (h1 : rows ≠ []) (h2 : rows.length ≤ 10000) :
    read_output_file_in_chunks rows = [rows] := by
  rw [read_chunks_cons rows h1, List.take_of_length_le h2,
    List.drop_eq_nil_of_le h2, read_chunks_nil]

lemma read_chunks_append (c rest : List Row) (h : c.length = 10000) :
    read_output_file_in_chunks (c ++ rest) = c :: read_output_file_in_chunks rest := by
  have hne : c ++ rest ≠ [] := by
    intro hx
    have := congrArg List.length hx
    simp [h] at this
  rw [read_chunks_cons _ hne]
  congr 1
  · rw [List.take_append_of_le_length (le_of_eq h.symm)]
    exact List.take_of_length_le (le_of_eq h)
  · rw [show (10000 : ℕ) = c.length from h.symm, List.drop_left]

lemma update_single (w : ℕ) (rows : List Row) (h1 : rows ≠ [])
    (h2 : rows.length ≤ 10000) :
    update_secondary_stats w rows = chunkUpdate w rows := by
  rw [update_secondary_stats, read_chunks_single rows h1 h2]
  simp

lemma read_chunks_flatten (w : ℕ) :
    ∀ (N : ℕ) (l : List Row), l.length ≤ N →
      read_output_file_in_chunks
          (((read_output_file_in_chunks l).map (chunkUpdate w)).flatten)
        = (read_output_file_in_chunks l).map (chunkUpdate w) := by
  intro N
  induction N with
  | zero =>
    intro l h
    rw [List.eq_nil_of_length_eq_zero (Nat.le_zero.mp h)]
    simp [read_chunks_nil]
  | succ N ih =>
    intro l hl
    by_cases h0 : l = []
    · subst h0; simp [read_chunks_nil]
    · have hpos : 0 < l.length := List.length_pos.mpr h0
      rw [read_chunks_cons l h0]
      by_cases hd : l.drop 10000 = []
      · have hlen10 : l.length ≤ 10000 := by
          have h' := congrArg List.length hd
          rw [List.length_drop] at h'
          simp at h'
          omega
        rw [hd, read_chunks_nil]
        simp only [List.map_cons, List.map_nil, List.flatten_cons, List.flatten_nil,
          List.append_nil]
        rw [List.take_of_length_le hlen10]
        refine read_chunks_single (chunkUpdate w l) ?_ ?_
        · intro hx
          have hzero : (chunkUpdate w l).length = 0 := by rw [hx]; rfl
          rw [(chunkUpdate_spec w l).1] at hzero
          omega
        · rw [(chunkUpdate_spec w l).1]; exact hlen10
      · have hgt : 10000 < l.length := by
          have h' := List.length_pos.mpr hd
          rw [List.length_drop] at h'
          omega
        have htake : (l.take 10000).length = 10000 := by
          rw [List.length_take]
          exact inf_eq_left.mpr (le_of_lt hgt)
        simp only [List.map_cons, List.flatten_cons]
        rw [read_chunks_append (chunkUpdate w (l.take 10000)) _
          (by rw [(chunkUpdate_spec w _).1]; exact htake)]
        congr 1
        exact ih (l.drop 10000) (by rw [List.length_drop]; omega)

/-! ## Idempotence of the recompute (claim C8) -/

lemma rows_ext (l1 : List Row) : ∀ l2 : List Row,
    l1.map Row.time = l2.map Row.time →
    l1.map Row.kudos = l2.map Row.kudos →
    l1.map Row.ma = l2.map Row.ma →
    l1.map Row.d1 = l2.map Row.d1 →
    l1.map Row.mad1 = l2.map Row.mad1 → l1 = l2 := by
  induction l1 with
  | nil =>
    intro l2 ht _ _ _ _
    cases l2 with
    | nil => rfl
    | cons s ss => simp at ht
  | cons r rs ih =>
    intro l2 ht hk hma hd1 hmad1
    cases l2 with
    | nil => simp at ht
    | cons s ss =>
      simp only [List.map_cons, List.cons.injEq] at ht hk hma hd1 hmad1
      rw [Row.ext ht.1 hk.1 hma.1 hd1.1 hmad1.1,
        ih ss ht.2 hk.2 hma.2 hd1.2 hmad1.2]

lemma chunkUpdate_idem (w : ℕ) (c : List Row) :
    chunkUpdate w (chunkUpdate w c) = chunkUpdate w c := by
  obtain ⟨h1, h2, h3, h4, h5, h6⟩ := chunkUpdate_spec w c
  obtain ⟨g1, g2, g3, g4, g5, g6⟩ := chunkUpdate_spec w (chunkUpdate w c)
  rw [h3] at g4 g5 g6
  exact rows_ext _ _ g2 g3 (g4.trans h4.symm) (g5.trans h5.symm) (g6.trans h6.symm)

/-- C8: recomputing the derived columns is idempotent on the store: running
`update_secondary_stats` twice in a row with no intervening append produces
the same rows as running it once, and hence (the file being a function of
the rows) byte-identical output for any rendering of the rows. -/
theorem claim_C8 (w : ℕ) (s : List Row) :
    update_secondary_stats w (update_secondary_stats w s) =
      update_secondary_stats w s ∧
    ∀ render : List Row → String,
      render (update_secondary_stats w (update_secondary_stats w s)) =
        render (update_secondary_stats w s) := by
  have main : update_secondary_stats w (update_secondary_stats w s) =
      update_secondary_stats w s := by
    conv_lhs => rw [update_secondary_stats, update_secondary_stats]
    rw [read_chunks_flatten w s.length s le_rfl, List.map_map,
      show (chunkUpdate w) ∘ (chunkUpdate w) = chunkUpdate w from
        funext (chunkUpdate_idem w), ← update_secondary_stats]
  exact ⟨main, fun render => congrArg render main⟩

/-! ## Visibility of the rewrite (claim C4) -/

lemma trace_eq (w : ℕ) (pre : List Row) :
    update_secondary_stats_trace w pre =
      [FileState.complete pre, FileState.truncated,
       FileState.complete (update_secondary_stats w pre)] := rfl

/-- C4 counterexample: during the rewrite of a one-row store the file passes
through the truncated state, which is neither the pre-rewrite nor the
post-rewrite contents — a reader during the recompute can observe a
truncated store, refuting the write-new-then-atomically-replace claim. -/
theorem claim_C4_counterexample :
    ¬ (∀ s ∈ update_secondary_stats_trace 2880 [⟨1, 5, none, none, none⟩],
        s = FileState.complete [⟨1, 5, none, none, none⟩] ∨
        s = FileState.complete
              (update_secondary_stats 2880 [⟨1, 5, none, none, none⟩])) := by
  intro h
  have hmem : FileState.truncated ∈
      update_secondary_stats_trace 2880 [⟨1, 5, none, none, none⟩] := by
    rw [trace_eq]
    simp
  rcases h _ hmem with h1 | h1 <;> exact FileState.noConfusion h1

/-- C4 (amended): the recompute rewrites the store by opening it with
truncation and writing the new content in place (pandas `to_csv`), so the
observable file states are exactly: the pre-rewrite store, the truncated
file, and the fully rewritten store.  A reader during the rewrite can
observe the truncated state, and an error between the truncation and the
write leaves the store truncated rather than in its last fully-consistent
state; the truncated state differs from both the pre- and post-rewrite
contents. -/
theorem claim_C4 (w : ℕ) (pre : List Row) :
    update_secondary_stats_trace w pre =
      [FileState.complete pre, FileState.truncated,
       FileState.complete (update_secondary_stats w pre)] ∧
    FileState.truncated ≠ FileState.complete pre ∧
    FileState.truncated ≠ FileState.complete (update_secondary_stats w pre) := by
  exact ⟨trace_eq w pre, fun h => FileState.noConfusion h,
    fun h => FileState.noConfusion h⟩

/-! ## Appending one sample (claim C9) -/

/-- C9: `log_kudos` appends exactly one row, consisting of the timestamp
rendered with two decimal places and the metric converted by `int()`, which
truncates toward zero: it equals the floor for non-negative metrics and the
ceiling for negative ones, and its absolute value is the floor of the
absolute value of the metric — the fractional part is discarded. -/
theorem claim_C9 (now kudos : ℚ) (file : List String) :
    log_kudos now kudos file =
      file ++ [fmtFixed2 now ++ "," ++ toString (pyInt kudos)] ∧
    (log_kudos now kudos file).length = file.length + 1 ∧
    pyInt kudos = (if 0 ≤ kudos then ⌊kudos⌋ else ⌈kudos⌉) ∧
    |pyInt kudos| = ⌊|kudos|⌋ := by
  have key : pyInt kudos = if 0 ≤ kudos then ⌊kudos⌋ else ⌈kudos⌉ := by
    by_cases h : 0 ≤ kudos
    · rw [if_pos h, pyInt, Rat.floor_def,
        Int.tdiv_eq_ediv (by exact_mod_cast Rat.num_nonneg.mpr h) (by positivity)]
    · rw [if_neg h]
      push_neg at h
      have h1 : (-kudos).num.tdiv (-kudos).den = ⌊-kudos⌋ := by
        rw [Rat.floor_def,
          Int.tdiv_eq_ediv (by exact_mod_cast Rat.num_nonneg.mpr (by linarith))
            (by positivity)]
      rw [Rat.neg_num, Rat.neg_den, Int.neg_tdiv] at h1
      have h2 : ⌊-kudos⌋ = -⌈kudos⌉ := Int.floor_neg
      rw [pyInt]
      omega
  refine ⟨rfl, by simp [log_kudos], key, ?_⟩
  by_cases h : 0 ≤ kudos
  · rw [key, if_pos h, abs_of_nonneg (Int.floor_nonneg.mpr h), abs_of_nonneg h]
  · push_neg at h
    rw [key, if_neg (not_le.mpr h), abs_of_neg h,
      abs_of_nonpos (Int.ceil_le.mpr (by exact_mod_cast le_of_lt h)),
      Int.floor_neg]

/-- C10 witness: retention 2 over a directory holding two snapshot
artifacts and two unrelated entries, checked at the unrelated entry
`stray.txt` (which survives because its creation time is among the two most
recent). -/
theorem claim_C10_witness :
    ([⟨"out-100.csv.gz", 100⟩, ⟨"stray.txt", 300⟩, ⟨"out-200.csv.gz", 200⟩,
        ⟨"notes", 50⟩] : List Entry).Pairwise (fun a b => a.ctime ≠ b.ctime) ∧
    (setup_backup_dir 2
        [⟨"out-100.csv.gz", 100⟩, ⟨"stray.txt", 300⟩, ⟨"out-200.csv.gz", 200⟩,
         ⟨"notes", 50⟩]).length =
      min 2 ([⟨"out-100.csv.gz", 100⟩, ⟨"stray.txt", 300⟩,
        ⟨"out-200.csv.gz", 200⟩, ⟨"notes", 50⟩] : List Entry).length ∧
    (⟨"stray.txt", 300⟩ : Entry) ∈
      ([⟨"out-100.csv.gz", 100⟩, ⟨"stray.txt", 300⟩, ⟨"out-200.csv.gz", 200⟩,
        ⟨"notes", 50⟩] : List Entry) ∧
    ((⟨"stray.txt", 300⟩ : Entry) ∈ setup_backup_dir 2
        [⟨"out-100.csv.gz", 100⟩, ⟨"stray.txt", 300⟩, ⟨"out-200.csv.gz", 200⟩,
         ⟨"notes", 50⟩] ↔
      ([⟨"out-100.csv.gz", 100⟩, ⟨"stray.txt", 300⟩, ⟨"out-200.csv.gz", 200⟩,
        ⟨"notes", 50⟩] : List Entry).countP
          (fun b => decide ((⟨"stray.txt", 300⟩ : Entry).ctime < b.ctime)) < 2) :=
  ⟨by decide,
   (claim_C10 2
      [⟨"out-100.csv.gz", 100⟩, ⟨"stray.txt", 300⟩, ⟨"out-200.csv.gz", 200⟩,
       ⟨"notes", 50⟩] (by decide)).1,
   by decide,
   (claim_C10 2
      [⟨"out-100.csv.gz", 100⟩, ⟨"stray.txt", 300⟩, ⟨"out-200.csv.gz", 200⟩,
       ⟨"notes", 50⟩] (by decide)).2 ⟨"stray.txt", 300⟩ (by decide)⟩

/-! ## The derived columns agree with the specification formulas (claim C3) -/

lemma filterMap_id_map_some (l : List ℚ) : (l.map some).filterMap id = l := by
  induction l with
  | nil => rfl
  | cons a t ih => simp [List.filterMap_cons, ih]

lemma intCol_eq (ks : List ℤ) : intCol ks = (castCol ks).map some := by
  simp [intCol, castCol, List.map_map, Function.comp]

lemma castCol_length (ks : List ℤ) : (castCol ks).length = ks.length := by
  rw [castCol, List.length_map]

lemma ma_getD (w : ℕ) (hw : 1 ≤ w) (ks : List ℤ) (i : ℕ) (hi : i < ks.length) :
    (rollingMean w (intCol ks)).getD i none = specMA w ks i := by
  have hIlen : i < (intCol ks).length := by rw [intCol_length]; exact hi
  rw [rollingMean_getD w _ i hIlen]
  have hfm : (((intCol ks).take (i + 1)).drop (i + 1 - w)).filterMap id
      = castCol ((ks.take (i + 1)).drop (i + 1 - w)) := by
    rw [intCol_eq, ← List.map_take, ← List.map_drop, filterMap_id_map_some]
    simp only [castCol, List.map_take, List.map_drop]
  rw [hfm]
  have hlen : (castCol ((ks.take (i + 1)).drop (i + 1 - w))).length = min (i + 1) w := by
    rw [castCol_length, List.length_drop, List.length_take,
      inf_eq_left.mpr (by omega : i + 1 ≤ ks.length)]
    omega
  have hne : (castCol ((ks.take (i + 1)).drop (i + 1 - w))).isEmpty = false := by
    have hnz : (castCol ((ks.take (i + 1)).drop (i + 1 - w))).length ≠ 0 := by
      rw [hlen]; omega
    cases hE : (castCol ((ks.take (i + 1)).drop (i + 1 - w))).isEmpty
    · rfl
    · exact absurd (List.isEmpty_iff_length_eq_zero.mp hE) hnz
  rw [hne]
  have hwin : (ks.take (i + 1)).drop (i + 1 - w) = lastN (min (i + 1) w) (ks.take (i + 1)) := by
    rw [lastN]
    congr 1
    rw [List.length_take, inf_eq_left.mpr (by omega : i + 1 ≤ ks.length)]
    omega
  simp only [specMA, ← hwin, castCol_length]
  rfl

lemma diffsFrom_getElem? (t : List ℤ) : ∀ (a : ℤ) (j : ℕ), j < t.length →
    (diffsFrom a t)[j]? =
      some (((t.getD j 0 : ℤ) : ℚ) - (((a :: t).getD j 0 : ℤ) : ℚ)) := by
  induction t with
  | nil => intro a j h; simp at h
  | cons b t' ih =>
    intro a j h
    cases j with
    | zero => simp [diffsFrom]
    | succ j' =>
      simp only [diffsFrom, List.getElem?_cons_succ]
      rw [ih b j' (by simpa using h)]
      simp [List.getD_cons_succ]

lemma d1_getD (ks : List ℤ) (i : ℕ) (hi : i < ks.length) :
    (seriesDiff ks).getD i none = specD1 ks i := by
  cases ks with
  | nil => simp at hi
  | cons a t =>
    cases i with
    | zero => simp [seriesDiff, specD1]
    | succ j =>
      have hj : j < t.length := by
        simp only [List.length_cons] at hi
        omega
      simp only [seriesDiff, List.getD_eq_getElem?_getD, List.getElem?_cons_succ,
        List.getElem?_map]
      rw [diffsFrom_getElem? t a j hj]
      simp [specD1, List.getD_cons_succ]

lemma diffsFrom_take (t : List ℤ) : ∀ (a : ℤ) (m : ℕ),
    (diffsFrom a t).take m = diffsFrom a (t.take m) := by
  induction t with
  | nil => intro a m; simp [diffsFrom]
  | cons b t' ih =>
    intro a m
    cases m with
    | zero => simp [diffsFrom]
    | succ m' =>
      simp only [diffsFrom, List.take_succ_cons, ih b m']

lemma window_skip_none (w : ℕ) (ds : List ℚ) (i : ℕ) (hi : 1 ≤ i)
    (hd : i ≤ ds.length) :
    (((none :: ds.map some).take (i + 1)).drop (i + 1 - w)).filterMap id
      = lastN (min i w) (ds.take i) := by
  have htake : (none :: ds.map some).take (i + 1) = none :: (ds.take i).map some := by
    rw [List.take_succ_cons, ← List.map_take]
  have hTlen : (ds.take i).length = i := by
    rw [List.length_take]
    exact inf_eq_left.mpr hd
  rw [htake]
  by_cases hcase : i + 1 ≤ w
  · have h0 : i + 1 - w = 0 := by omega
    rw [h0, List.drop_zero]
    have : (none :: (ds.take i).map some).filterMap id = ds.take i := by
      rw [List.filterMap_cons]
      exact filterMap_id_map_some (ds.take i)
    rw [this, lastN, hTlen, show min i w = i by omega]
    simp
  · have h1 : i + 1 - w = (i - w) + 1 := by omega
    rw [h1, List.drop_succ_cons, ← List.map_drop, filterMap_id_map_some,
      lastN, hTlen, show min i w = w by omega]

lemma mad1_getD (ks : List ℤ) (i : ℕ) (hi : i < ks.length) :
    (rollingMean 15 (seriesDiff ks)).getD i none = specMAD1 ks i := by
  cases ks with
  | nil => simp at hi
  | cons a t =>
    rw [rollingMean_getD 15 _ i (by rw [seriesDiff_length]; exact hi)]
    cases i with
    | zero =>
      simp [seriesDiff, specMAD1, List.filterMap_cons]
    | succ j =>
      have hd : j + 1 ≤ (diffsFrom a t).length := by
        rw [diffsFrom_length]
        simp only [List.length_cons] at hi
        omega
      rw [show seriesDiff (a :: t) = none :: (diffsFrom a t).map some from rfl,
        window_skip_none 15 (diffsFrom a t) (j + 1) (by omega) hd]
      have hwlen : (lastN (min (j + 1) 15) ((diffsFrom a t).take (j + 1))).length
          = min (j + 1) 15 := by
        rw [lastN, List.length_drop, List.length_take, inf_eq_left.mpr hd]
        have hm : min (j + 1) 15 ≤ j + 1 := min_le_left _ _
        omega
      have hne : (lastN (min (j + 1) 15) ((diffsFrom a t).take (j + 1))).isEmpty
          = false := by
        have hnz : (lastN (min (j + 1) 15) ((diffsFrom a t).take (j + 1))).length ≠ 0 := by
          rw [hwlen]
          have : 1 ≤ min (j + 1) 15 := le_min (by omega) (by omega)
          omega
        cases hE : (lastN (min (j + 1) 15) ((diffsFrom a t).take (j + 1))).isEmpty
        · rfl
        · exact absurd (List.isEmpty_iff_length_eq_zero.mp hE) hnz
      rw [hne]
      simp [specMAD1]

/-! ## Prefix determinism of the specification formulas -/

lemma specMA_take (w : ℕ) (ks : List ℤ) (i : ℕ) :
    specMA w (ks.take (i + 1)) i = specMA w ks i := by
  simp only [specMA, List.take_take, inf_idem]

lemma specD1_take (ks : List ℤ) (i : ℕ) (hi : i < ks.length) :
    specD1 (ks.take (i + 1)) i = specD1 ks i := by
  by_cases h : i = 0
  · simp [specD1, h]
  · have c1 : i < i + 1 := by omega
    have c2 : i - 1 < i + 1 := by omega
    simp [specD1, h, List.getD_eq_getElem?_getD, List.getElem?_take, c1, c2]

lemma specMAD1_take (ks : List ℤ) (i : ℕ) :
    specMAD1 (ks.take (i + 1)) i = specMAD1 ks i := by
  cases ks with
  | nil => rfl
  | cons a t =>
    simp only [List.take_succ_cons, specMAD1]
    by_cases h : i = 0
    · simp [h]
    · simp only [if_neg h]
      rw [← diffsFrom_take t a i, List.take_take, inf_idem]

/-- C3 (amended): for a store of at most 10000 samples — a single pandas
chunk — and a configured window `w ≥ 1`, the recomputed derived columns
agree at every row `i` with the specification formulas: the moving average
is the mean of the `min (i+1) w` most recent metric values, the first
difference is undefined at row 0 and `metric[i] - metric[i-1]` afterwards,
and the moving average of the first difference is the mean of the
`min i 15` most recent defined differences; each formula depends only on
the samples up to and including row `i`.  (For stores beyond 10000 rows the
chunked recompute restarts the windows at every chunk boundary, see the
counterexample.) -/
theorem claim_C3 (w : ℕ) (hw : 1 ≤ w) (rows : List Row) (hn : rows.length ≤ 10000)
    (i : ℕ) (hi : i < rows.length) :
    ((update_secondary_stats w rows).map Row.ma).getD i none =
      specMA w (rows.map Row.kudos) i ∧
    ((update_secondary_stats w rows).map Row.d1).getD i none =
      specD1 (rows.map Row.kudos) i ∧
    ((update_secondary_stats w rows).map Row.mad1).getD i none =
      specMAD1 (rows.map Row.kudos) i ∧
    specMA w ((rows.map Row.kudos).take (i + 1)) i = specMA w (rows.map Row.kudos) i ∧
    specD1 ((rows.map Row.kudos).take (i + 1)) i = specD1 (rows.map Row.kudos) i ∧
    specMAD1 ((rows.map Row.kudos).take (i + 1)) i = specMAD1 (rows.map Row.kudos) i := by
  have hne : rows ≠ [] := by
    intro h
    rw [h] at hi
    simp at hi
  have hup : update_secondary_stats w rows = chunkUpdate w rows :=
    update_single w rows hne hn
  have hki : i < (rows.map Row.kudos).length := by
    rw [List.length_map]; exact hi
  obtain ⟨h1, h2, h3, h4, h5, h6⟩ := chunkUpdate_spec w rows
  refine ⟨?_, ?_, ?_, specMA_take w _ i, specD1_take _ i hki, specMAD1_take _ i⟩
  · rw [hup, h4]
    exact ma_getD w hw _ i hki
  · rw [hup, h5]
    exact d1_getD _ i hki
  · rw [hup, h6]
    exact mad1_getD _ i hki

/-- C3 witness: the specification scenario — samples `[10, 20, 30]` with
window 2, checked at row 2. -/
theorem claim_C3_witness :
    1 ≤ 2 ∧
    ([⟨1, 10, none, none, none⟩, ⟨2, 20, none, none, none⟩,
      ⟨3, 30, none, none, none⟩] : List Row).length ≤ 10000 ∧
    2 < ([⟨1, 10, none, none, none⟩, ⟨2, 20, none, none, none⟩,
      ⟨3, 30, none, none, none⟩] : List Row).length ∧
    ((update_secondary_stats 2
        [⟨1, 10, none, none, none⟩, ⟨2, 20, none, none, none⟩,
         ⟨3, 30, none, none, none⟩]).map Row.ma).getD 2 none =
      specMA 2 (([⟨1, 10, none, none, none⟩, ⟨2, 20, none, none, none⟩,
         ⟨3, 30, none, none, none⟩] : List Row).map Row.kudos) 2 :=
  ⟨by decide, by decide, by decide,
   (claim_C3 2 (by decide)
      [⟨1, 10, none, none, none⟩, ⟨2, 20, none, none, none⟩,
       ⟨3, 30, none, none, none⟩] (by decide) 2 (by decide)).1⟩

/-- C3 counterexample: with 10001 identical samples the first difference at
row 10000 — the first row of the second pandas chunk — is undefined in the
recomputed store, while the specification formula gives
`metric[10000] - metric[9999] = 0`: the derived columns do not follow the
specification formulas (nor are they a function of the full ordered sample
sequence) once the store exceeds one 10000-row chunk. -/
theorem claim_C3_counterexample :
    ((update_secondary_stats 2880
        (List.replicate 10001 (⟨0, 0, none, none, none⟩ : Row))).map Row.d1).getD
        10000 none
      ≠ specD1 ((List.replicate 10001 (⟨0, 0, none, none, none⟩ : Row)).map
          Row.kudos) 10000 := by
  have hne0 : List.replicate 10001 (⟨0, 0, none, none, none⟩ : Row) ≠ [] := by
    intro hx
    have := congrArg List.length hx
    rw [List.length_replicate] at this
    simp at this
  have hne1 : List.replicate 1 (⟨0, 0, none, none, none⟩ : Row) ≠ [] := by
    intro hx
    have := congrArg List.length hx
    rw [List.length_replicate] at this
    simp at this
  have hch : read_output_file_in_chunks
      (List.replicate 10001 (⟨0, 0, none, none, none⟩ : Row))
      = [List.replicate 10000 (⟨0, 0, none, none, none⟩ : Row),
         List.replicate 1 (⟨0, 0, none, none, none⟩ : Row)] := by
    rw [read_chunks_cons _ hne0, List.take_replicate, List.drop_replicate,
      show (10000 : ℕ) ⊓ 10001 = 10000 from inf_eq_left.mpr (by omega),
      show (10001 : ℕ) - 10000 = 1 by omega,
      read_chunks_single _ hne1 (by rw [List.length_replicate]; omega)]
  have hlhs : ((update_secondary_stats 2880
      (List.replicate 10001 (⟨0, 0, none, none, none⟩ : Row))).map Row.d1).getD
      10000 none = none := by
    rw [update_secondary_stats, hch]
    simp only [List.map_cons, List.map_nil, List.flatten_cons, List.flatten_nil,
      List.append_nil, List.map_append]
    rw [List.getD_eq_getElem?_getD, List.getElem?_append_right
      (by rw [List.length_map, (chunkUpdate_spec 2880 _).1, List.length_replicate])]
    rw [List.length_map, (chunkUpdate_spec 2880 _).1, List.length_replicate]
    rw [(chunkUpdate_spec 2880 _).2.2.2.2.1]
    simp [seriesDiff, diffsFrom]
  have hrhs : specD1 ((List.replicate 10001 (⟨0, 0, none, none, none⟩ : Row)).map
      Row.kudos) 10000 = some 0 := by
    rw [List.map_replicate]
    simp only [specD1, if_neg (by omega : (10000 : ℕ) ≠ 0)]
    rw [List.getD_eq_getElem?_getD, List.getD_eq_getElem?_getD,
      List.getElem?_replicate, List.getElem?_replicate]
    rw [if_pos (by omega : (10000 : ℕ) < 10001),
      if_pos (by omega : (10000 : ℕ) - 1 < 10001)]
    simp
  rw [hlhs, hrhs]
  simp

end KudoMan
